import Mathlib

/-!
Shallow embedding of the `unflappable` debouncer crate (`src/lib.rs`):
the `Debounce` policy trait, the packed-state bit layout, and the
`init` / `poll` / `deinit` operations of `Debouncer`, together with the
read-only `Debounced` view.  Storage integers are `Nat` reduced modulo
`2 ^ width` wherever the Rust arithmetic wraps.
-/

namespace Unflappable

/-- The `Debounce` trait: the storage width in bits of `Debounce::Storage`,
the saturation threshold `MAX_COUNT`, and the initial state `INIT_HIGH`. -/
structure Debounce where
  width : Nat
  MAX_COUNT : Nat
  INIT_HIGH : Bool

namespace Debounce

/-- The modulus `2 ^ width` of the storage integer type. -/
def modulus (c : Debounce) : Nat := 2 ^ c.width

/-- Bitwise complement at the storage width (Rust `!x` on `Storage`). -/
def wnot (c : Debounce) (x : Nat) : Nat := (c.modulus - 1) ^^^ x

/-- `DebounceExt::zero()`. -/
def zero (_ : Debounce) : Nat := 0

/-- `DebounceExt::state_mask()`: bit 0. -/
def state_mask (_ : Debounce) : Nat := 1

/-- `DebounceExt::init_mask()`: `1 << 1`. -/
def init_mask (_ : Debounce) : Nat := 1 <<< 1

/-- `DebounceExt::integrator_one()`: `1 << 2`. -/
def integrator_one (_ : Debounce) : Nat := 1 <<< 2

/-- `DebounceExt::integrator_mask()`: `!(integrator_one() - 1)`. -/
def integrator_mask (c : Debounce) : Nat := c.wnot (c.integrator_one - 1)

/-- `DebounceExt::integrator_max()`: `MAX_COUNT << 2`, wrapping at the
storage width. -/
def integrator_max (c : Debounce) : Nat := (c.MAX_COUNT <<< 2) % c.modulus

/-- The condition of the `assert!` in `Debouncer::init`:
`(Cfg::MAX_COUNT << 2) >> 2 == Cfg::MAX_COUNT` at the storage width. -/
def shift_round_trip (c : Debounce) : Prop :=
  ((c.MAX_COUNT <<< 2) % c.modulus) >>> 2 = c.MAX_COUNT

instance (c : Debounce) : Decidable c.shift_round_trip := by
  unfold shift_round_trip; infer_instance

/-- A well-formed policy: at least two storage bits, and `MAX_COUNT`
surviving the two-bit shift round trip checked by `Debouncer::init`. -/
def valid (c : Debounce) : Prop := 2 ≤ c.width ∧ c.shift_round_trip

/-- Reading the integrator field of a packed word: `state & integrator_mask`. -/
def integrator (c : Debounce) (s : Nat) : Nat := s &&& c.integrator_mask

end Debounce

/-- The read-only `Debounced` view: it holds a borrowed reference to the
engine storage cell, modeled as the address of that cell. -/
structure Debounced where
  storageAddr : Nat
deriving DecidableEq

/-- The `Debouncer` engine: the `MaybeUninit<Pin>` slot (absent while
uninitialized), the packed state word, and the address of its storage cell
(used for the pointer comparison in `deinit`). -/
structure Debouncer (Pin : Type) where
  pin : Option Pin
  storage : Nat
  storageAddr : Nat
deriving DecidableEq

/-- `Debouncer::uninit(zero)`: uninitialized pin slot, zero storage. -/
def Debouncer.uninit (Pin : Type) (addr : Nat) : Debouncer Pin :=
  { pin := none, storage := 0, storageAddr := addr }

/-- `struct InitError`: once-only initialization has been violated. -/
inductive InitError
  | mk
deriving DecidableEq

/-- Outcome of the public `Debouncer::init`, with a failure of its
`assert!` on the shift round trip modeled as a configuration error. -/
inductive InitFailure
  | config
  | alreadyInit
deriving DecidableEq

/-- `enum PollError<PinError>`. -/
inductive PollError (ε : Type)
  | init
  | pin (e : ε)
deriving DecidableEq

/-- `enum DeinitError`: `Init` carries nothing, `Pin` carries the
rejected view. -/
inductive DeinitError
  | init
  | pin (v : Debounced)
deriving DecidableEq

/-- `Debouncer::init_flag()`: `state & init_mask != zero`. -/
def init_flag (c : Debounce) (s : Nat) : Bool :=
  decide (s &&& c.init_mask ≠ c.zero)

/-- `Debouncer::set_state_flag()`: `state |= state_mask`. -/
def set_state_flag (c : Debounce) (s : Nat) : Nat := s ||| c.state_mask

/-- `Debouncer::clear_state_flag()`: `state &= !state_mask`. -/
def clear_state_flag (c : Debounce) (s : Nat) : Nat := s &&& c.wnot c.state_mask

/-- `Debouncer::integrator_is_zero()`. -/
def integrator_is_zero (c : Debounce) (s : Nat) : Bool :=
  decide (s &&& c.integrator_mask = c.zero)

/-- `Debouncer::integrator_is_max()`. -/
def integrator_is_max (c : Debounce) (s : Nat) : Bool :=
  decide (s &&& c.integrator_mask = c.integrator_max)

/-- `Debouncer::decrement_integrator()`: wrapping subtraction of one
integrator unit, guarded by the zero check. -/
def decrement_integrator (c : Debounce) (s : Nat) : Nat :=
  if integrator_is_zero c s then s
  else (s + (c.modulus - c.integrator_one)) % c.modulus

/-- `Debouncer::increment_integrator()`: wrapping addition of one
integrator unit, guarded by the max check. -/
def increment_integrator (c : Debounce) (s : Nat) : Nat :=
  if integrator_is_max c s then s else (s + c.integrator_one) % c.modulus

/-- `Debouncer::init_linted(pin)`: returns the `Result` together with the
post-call engine state (unchanged on the error path). -/
def init_linted {Pin : Type} (c : Debounce) (σ : Debouncer Pin) (p : Pin) :
    Except InitError Debounced × Debouncer Pin :=
  if init_flag c σ.storage then (Except.error InitError.mk, σ)
  else
    let new_state :=
      (if c.INIT_HIGH then c.state_mask ||| c.integrator_max else c.zero) |||
        c.init_mask
    (Except.ok ⟨σ.storageAddr⟩,
      { σ with pin := some p, storage := new_state })

/-- `Debouncer::init(pin)`: the `assert!` on the shift round trip, then
`init_linted`.  An assertion failure is the configuration error. -/
def init {Pin : Type} (c : Debounce) (σ : Debouncer Pin) (p : Pin) :
    Except InitFailure Debounced × Debouncer Pin :=
  if c.shift_round_trip then
    match init_linted c σ p with
    | (Except.ok v, σ2) => (Except.ok v, σ2)
    | (Except.error _, σ2) => (Except.error InitFailure.alreadyInit, σ2)
  else (Except.error InitFailure.config, σ)

/-- `Debouncer::poll_linted()`: the outcome of `pin.is_low()` for this tick
is passed in as `read_low`.  Returns the `Result` together with the
post-call engine state (unchanged on both error paths). -/
def poll_linted {Pin ε : Type} (c : Debounce) (σ : Debouncer Pin)
    (read_low : Except ε Bool) :
    Except (PollError ε) Unit × Debouncer Pin :=
  if !(init_flag c σ.storage) then (Except.error PollError.init, σ)
  else
    match read_low with
    | Except.error e => (Except.error (PollError.pin e), σ)
    | Except.ok true =>
        let s1 := decrement_integrator c σ.storage
        let s2 := if integrator_is_zero c s1 then clear_state_flag c s1 else s1
        (Except.ok (), { σ with storage := s2 })
    | Except.ok false =>
        let s1 := increment_integrator c σ.storage
        let s2 := if integrator_is_max c s1 then set_state_flag c s1 else s1
        (Except.ok (), { σ with storage := s2 })

/-- `Debouncer::deinit_linted(pin)`: returns the `Result` (on success, the
content read back out of the `MaybeUninit` pin slot) together with the
post-call engine state. -/
def deinit_linted {Pin : Type} (c : Debounce) (σ : Debouncer Pin)
    (v : Debounced) :
    Except DeinitError (Option Pin) × Debouncer Pin :=
  if !(init_flag c σ.storage) then (Except.error DeinitError.init, σ)
  else if σ.storageAddr ≠ v.storageAddr then
    (Except.error (DeinitError.pin v), σ)
  else
    (Except.ok σ.pin, { σ with storage := c.zero, pin := none })

/-- `<Debounced as InputPin>::is_high()`, reading the bound storage word:
`Ok(state & state_mask != zero)` with the uninhabited error `Infallible`. -/
def Debounced.is_high (c : Debounce) (s : Nat) : Except Empty Bool :=
  Except.ok (decide (s &&& c.state_mask ≠ c.zero))

/-- `<Debounced as InputPin>::is_low()`, reading the bound storage word:
`Ok(state & state_mask == zero)` with the uninhabited error `Infallible`. -/
def Debounced.is_low (c : Debounce) (s : Nat) : Except Empty Bool :=
  Except.ok (decide (s &&& c.state_mask = c.zero))

/-- One operation of the engine protocol, with the externally supplied
inputs (the pin handed to `init`, the sample result consumed by `poll`,
the view handed to `deinit`). -/
inductive Op (Pin ε : Type)
  | opInit (p : Pin)
  | opPoll (read_low : Except ε Bool)
  | opDeinit (v : Debounced)

/-- The engine state after one operation (the error paths leave it
unchanged, as each `Result`-returning method does). -/
def step {Pin ε : Type} (c : Debounce) (σ : Debouncer Pin) :
    Op Pin ε → Debouncer Pin
  | Op.opInit p => (init c σ p).2
  | Op.opPoll r => (poll_linted c σ r).2
  | Op.opDeinit v => (deinit_linted c σ v).2

/-- The engine state after a sequence of operations. -/
def run {Pin ε : Type} (c : Debounce) (σ : Debouncer Pin) :
    List (Op Pin ε) → Debouncer Pin
  | [] => σ
  | op :: ops => run c (step c σ op) ops

/-- Packing the three logical fields into one storage word: the integrator
(scaled by one unit, bits 2 and up), the initialized flag (bit 1), and the
logical-state flag (bit 0). -/
def encode (i : Nat) (ini st : Bool) : Nat :=
  4 * i + (cond ini 2 0) + (cond st 1 0)

/-! ### Bit-level computations of the masks -/

theorem and_two_eq (n : Nat) : n &&& 2 = 2 * (n / 2 % 2) := by
  have h1 := @Nat.and_mod_two_eq_one n 2
  have h2 : (n &&& 2) / 2 = n / 2 % 2 := by
    have h := @Nat.and_div_two n 2
    simpa [Nat.and_one_is_mod] using h
  omega

theorem or_one_eq (n : Nat) : n ||| 1 = 2 * (n / 2) + 1 := by
  have h1 := @Nat.or_mod_two_eq_one n 1
  have h2 : (n ||| 1) / 2 = n / 2 := by
    have h := @Nat.or_div_two n 1
    simpa using h
  omega

theorem width_split (c : Debounce) (hw : 2 ≤ c.width) :
    ∃ k, c.width = k + 2 ∧ 0 < 2 ^ k ∧ c.modulus = 4 * 2 ^ k := by
  refine ⟨c.width - 2, by omega, Nat.two_pow_pos _, ?_⟩
  unfold Debounce.modulus
  have h : c.width = (c.width - 2) + 2 := by omega
  calc 2 ^ c.width = 2 ^ ((c.width - 2) + 2) := by rw [← h]
    _ = 2 ^ (c.width - 2) * 2 ^ 2 := pow_add 2 _ 2
    _ = 4 * 2 ^ (c.width - 2) := by ring

theorem and_state_clear (c : Debounce) (hw : 2 ≤ c.width) (n : Nat)
    (hn : n < c.modulus) : n &&& c.wnot c.state_mask = 2 * (n / 2) := by
  obtain ⟨k, hk, hp, hmod⟩ := width_split c hw
  have hsub : (2:Nat) ^ (k + 1) = 2 * 2 ^ k := by rw [pow_succ]; ring
  unfold Debounce.wnot Debounce.state_mask
  rw [hmod]
  have hm2 : ((4 * 2 ^ k - 1) ^^^ 1) % 2 = 0 := by
    have h := @Nat.xor_mod_two_eq_one (4 * 2 ^ k - 1) 1
    omega
  have hmd : ((4 * 2 ^ k - 1) ^^^ 1) / 2 = 2 ^ (k + 1) - 1 := by
    have h := @Nat.xor_div_two (4 * 2 ^ k - 1) 1
    rw [h]
    simp only [Nat.reduceDiv, Nat.xor_zero]
    omega
  have h1 := @Nat.and_mod_two_eq_one n ((4 * 2 ^ k - 1) ^^^ 1)
  have h2 : (n &&& ((4 * 2 ^ k - 1) ^^^ 1)) / 2 = n / 2 := by
    rw [Nat.and_div_two, hmd, Nat.and_pow_two_sub_one_eq_mod,
      Nat.mod_eq_of_lt]
    omega
  omega

theorem and_integrator_mask (c : Debounce) (hw : 2 ≤ c.width) (n : Nat)
    (hn : n < c.modulus) : n &&& c.integrator_mask = 4 * (n / 4) := by
  obtain ⟨k, hk, hp, hmod⟩ := width_split c hw
  have hsub : (2:Nat) ^ (k + 1) = 2 * 2 ^ k := by rw [pow_succ]; ring
  unfold Debounce.integrator_mask Debounce.wnot Debounce.integrator_one
  have h3 : (1 <<< 2 : Nat) - 1 = 3 := by decide
  rw [hmod, h3]
  have hm2 : ((4 * 2 ^ k - 1) ^^^ 3) % 2 = 0 := by
    have h := @Nat.xor_mod_two_eq_one (4 * 2 ^ k - 1) 3
    omega
  have hmd : ((4 * 2 ^ k - 1) ^^^ 3) / 2 = (2 ^ (k + 1) - 1) ^^^ 1 := by
    have h := @Nat.xor_div_two (4 * 2 ^ k - 1) 3
    rw [h]
    have he : (4 * 2 ^ k - 1) / 2 = 2 ^ (k + 1) - 1 := by omega
    rw [he]
  have hmd2 : ((2 ^ (k + 1) - 1) ^^^ 1) % 2 = 0 := by
    have h := @Nat.xor_mod_two_eq_one (2 ^ (k + 1) - 1) 1
    omega
  have hmdd : ((2 ^ (k + 1) - 1) ^^^ 1) / 2 = 2 ^ k - 1 := by
    have h := @Nat.xor_div_two (2 ^ (k + 1) - 1) 1
    rw [h]
    simp only [Nat.reduceDiv, Nat.xor_zero]
    omega
  have h1 := @Nat.and_mod_two_eq_one n ((4 * 2 ^ k - 1) ^^^ 3)
  have h2 : (n &&& ((4 * 2 ^ k - 1) ^^^ 3)) / 2 =
      n / 2 &&& ((2 ^ (k + 1) - 1) ^^^ 1) := by
    rw [Nat.and_div_two, hmd]
  have h3a := @Nat.and_mod_two_eq_one (n / 2) ((2 ^ (k + 1) - 1) ^^^ 1)
  have h4 : (n / 2 &&& ((2 ^ (k + 1) - 1) ^^^ 1)) / 2 = n / 2 / 2 := by
    rw [Nat.and_div_two, hmdd, Nat.and_pow_two_sub_one_eq_mod,
      Nat.mod_eq_of_lt]
    omega
  omega

/-! ### The shift round trip and `integrator_max` -/

theorem rt_bound (c : Debounce) (hw : 2 ≤ c.width)
    (hrt : c.shift_round_trip) : 4 * c.MAX_COUNT < c.modulus := by
  obtain ⟨k, hk, hp, hmod⟩ := width_split c hw
  unfold Debounce.shift_round_trip at hrt
  rw [Nat.shiftLeft_eq, Nat.shiftRight_eq_div_pow, hmod] at hrt
  norm_num at hrt
  rw [hmod]
  have hdm := Nat.div_add_mod (c.MAX_COUNT * 4) (4 * 2 ^ k)
  have hlt : c.MAX_COUNT * 4 % (4 * 2 ^ k) < 4 * 2 ^ k :=
    Nat.mod_lt _ (by omega)
  obtain ⟨v, hv⟩ : ∃ v, 2 ^ k * (c.MAX_COUNT * 4 / (4 * 2 ^ k)) = v :=
    ⟨_, rfl⟩
  have hdm2 : 4 * v + c.MAX_COUNT * 4 % (4 * 2 ^ k) = c.MAX_COUNT * 4 := by
    rw [← hv]; linarith [hdm]
  omega

theorem rt_of_bound (c : Debounce) (hb : 4 * c.MAX_COUNT < c.modulus) :
    c.shift_round_trip := by
  unfold Debounce.shift_round_trip
  rw [Nat.shiftLeft_eq, Nat.shiftRight_eq_div_pow]
  norm_num
  rw [Nat.mod_eq_of_lt (by omega)]
  omega

theorem imax_eq (c : Debounce) (hw : 2 ≤ c.width)
    (hrt : c.shift_round_trip) : c.integrator_max = 4 * c.MAX_COUNT := by
  have hb := rt_bound c hw hrt
  unfold Debounce.integrator_max
  rw [Nat.shiftLeft_eq]
  norm_num
  rw [Nat.mod_eq_of_lt (by omega)]
  ring

/-! ### The packed encoding -/

theorem encode_le (i : Nat) (a b : Bool) : encode i a b ≤ 4 * i + 3 := by
  unfold encode; cases a <;> cases b <;> simp <;> omega

theorem le_encode (i : Nat) (a b : Bool) : 4 * i ≤ encode i a b := by
  unfold encode; cases a <;> cases b <;> simp <;> omega

theorem encode_div_four (i : Nat) (a b : Bool) : encode i a b / 4 = i := by
  unfold encode; cases a <;> cases b <;> simp <;> omega

theorem encode_div_two (i : Nat) (a b : Bool) :
    encode i a b / 2 = 2 * i + cond a 1 0 := by
  unfold encode; cases a <;> cases b <;> simp <;> omega

theorem encode_mod_two (i : Nat) (a b : Bool) :
    encode i a b % 2 = cond b 1 0 := by
  unfold encode; cases a <;> cases b <;> simp <;> omega

theorem init_flag_encode (c : Debounce) (i : Nat) (a b : Bool) :
    init_flag c (encode i a b) = a := by
  unfold init_flag Debounce.init_mask Debounce.zero
  have h2 : (1 <<< 1 : Nat) = 2 := by decide
  rw [h2, and_two_eq, encode_div_two]
  cases a
  · simp
  · simp
    omega

theorem integrator_encode (c : Debounce) (hw : 2 ≤ c.width) (i : Nat)
    (a b : Bool) (hn : encode i a b < c.modulus) :
    c.integrator (encode i a b) = 4 * i := by
  unfold Debounce.integrator
  rw [and_integrator_mask c hw _ hn, encode_div_four]

theorem set_state_flag_encode (c : Debounce) (i : Nat) (a b : Bool) :
    set_state_flag c (encode i a b) = encode i a true := by
  unfold set_state_flag Debounce.state_mask
  rw [or_one_eq, encode_div_two]
  unfold encode; cases a <;> simp <;> omega

theorem clear_state_flag_encode (c : Debounce) (hw : 2 ≤ c.width) (i : Nat)
    (a b : Bool) (hn : encode i a b < c.modulus) :
    clear_state_flag c (encode i a b) = encode i a false := by
  unfold clear_state_flag
  rw [and_state_clear c hw _ hn, encode_div_two]
  unfold encode; cases a <;> simp <;> omega

theorem is_high_encode (c : Debounce) (i : Nat) (a b : Bool) :
    Debounced.is_high c (encode i a b) = Except.ok b := by
  unfold Debounced.is_high Debounce.state_mask Debounce.zero
  rw [Nat.and_one_is_mod, encode_mod_two]
  cases b <;> simp

theorem is_low_encode (c : Debounce) (i : Nat) (a b : Bool) :
    Debounced.is_low c (encode i a b) = Except.ok (!b) := by
  unfold Debounced.is_low Debounce.state_mask Debounce.zero
  rw [Nat.and_one_is_mod, encode_mod_two]
  cases b <;> simp

theorem decrement_integrator_encode (c : Debounce) (hw : 2 ≤ c.width)
    (i : Nat) (a b : Bool) (hn : encode i a b < c.modulus) :
    decrement_integrator c (encode i a b) = encode (i - 1) a b := by
  unfold decrement_integrator integrator_is_zero Debounce.zero
  rw [and_integrator_mask c hw _ hn, encode_div_four]
  rcases Nat.eq_zero_or_pos i with hi | hi
  · subst hi; simp
  · rw [if_neg (by simp; omega)]
    have hone : c.integrator_one = 4 := rfl
    rw [hone]
    have hge : 4 ≤ encode i a b := le_trans (by omega) (le_encode i a b)
    have hsplit : encode i a b + (c.modulus - 4) =
        (encode i a b - 4) + c.modulus := by omega
    rw [hsplit, Nat.add_mod_right, Nat.mod_eq_of_lt (by omega)]
    unfold encode
    cases a <;> cases b <;> simp <;> omega

theorem increment_integrator_encode (c : Debounce) (hw : 2 ≤ c.width)
    (hrt : c.shift_round_trip) (i : Nat) (a b : Bool)
    (hi : i ≤ c.MAX_COUNT) :
    increment_integrator c (encode i a b) =
      encode (min (i + 1) c.MAX_COUNT) a b := by
  have hb := rt_bound c hw hrt
  obtain ⟨k, hk, hp, hmod⟩ := width_split c hw
  have hle := encode_le i a b
  have hn : encode i a b < c.modulus := by omega
  unfold increment_integrator integrator_is_max
  rw [and_integrator_mask c hw _ hn, encode_div_four, imax_eq c hw hrt]
  rcases Nat.lt_or_ge i c.MAX_COUNT with hlt | hge
  · rw [if_neg (by simp; omega)]
    have hone : c.integrator_one = 4 := rfl
    rw [hone, Nat.mod_eq_of_lt (by omega)]
    have hmin : min (i + 1) c.MAX_COUNT = i + 1 := by omega
    rw [hmin]
    unfold encode
    cases a <;> cases b <;> simp <;> omega
  · have hieq : i = c.MAX_COUNT := by omega
    subst hieq
    rw [if_pos (by simp)]
    have hmin : min (c.MAX_COUNT + 1) c.MAX_COUNT = c.MAX_COUNT := by omega
    rw [hmin]

theorem or_two_eq (n : Nat) : n ||| 2 = 4 * (n / 4) + 2 + n % 2 := by
  have h1 := @Nat.or_mod_two_eq_one n 2
  have h2 : (n ||| 2) / 2 = 2 * (n / 4) + 1 := by
    have h := @Nat.or_div_two n 2
    rw [h]
    have h22 : (2:Nat) / 2 = 1 := by norm_num
    rw [h22, or_one_eq]
    have hdd : n / 2 / 2 = n / 4 := by omega
    rw [hdd]
  omega

theorem encode_mono (a b : Bool) {i j : Nat} (h : i ≤ j) :
    encode i a b ≤ encode j a b := by
  unfold encode; cases a <;> cases b <;> simp <;> omega

theorem integrator_is_zero_encode (c : Debounce) (hw : 2 ≤ c.width)
    (i : Nat) (a b : Bool) (hn : encode i a b < c.modulus) :
    integrator_is_zero c (encode i a b) = decide (i = 0) := by
  unfold integrator_is_zero Debounce.zero
  rw [and_integrator_mask c hw _ hn, encode_div_four]
  exact decide_eq_decide.mpr (by omega)

theorem integrator_is_max_encode (c : Debounce) (hw : 2 ≤ c.width)
    (hrt : c.shift_round_trip) (i : Nat) (a b : Bool)
    (hn : encode i a b < c.modulus) :
    integrator_is_max c (encode i a b) = decide (i = c.MAX_COUNT) := by
  unfold integrator_is_max
  rw [and_integrator_mask c hw _ hn, encode_div_four, imax_eq c hw hrt]
  exact decide_eq_decide.mpr (by omega)

theorem init_flag_zero (c : Debounce) : init_flag c 0 = false := by
  unfold init_flag Debounce.zero
  simp

/-- Successful `init_linted`: the stored word packs integrator `MAX_COUNT`
or `0` and state flag `INIT_HIGH`, with the initialized flag set. -/
theorem init_linted_ok {Pin : Type} (c : Debounce) (hw : 2 ≤ c.width)
    (hrt : c.shift_round_trip) (σ : Debouncer Pin) (p : Pin)
    (hflag : init_flag c σ.storage = false) :
    init_linted c σ p =
      (Except.ok ⟨σ.storageAddr⟩,
        { σ with pin := some p, storage := encode (if c.INIT_HIGH then c.MAX_COUNT else 0) true c.INIT_HIGH }) := by
  unfold init_linted
  rw [hflag]
  simp only [Bool.false_eq_true, if_false]
  unfold Debounce.state_mask Debounce.init_mask Debounce.zero
  rw [imax_eq c hw hrt]
  have h2 : (1 <<< 1 : Nat) = 2 := by decide
  rw [h2]
  cases hih : c.INIT_HIGH
  · simp only [if_false, Bool.false_eq_true]
    have : (0 : Nat) ||| 2 = encode 0 true false := by
      rw [or_two_eq]; unfold encode; simp
    rw [this]
  · simp only [if_true]
    have ha : (1 : Nat) ||| 4 * c.MAX_COUNT = 4 * c.MAX_COUNT + 1 := by
      rw [Nat.or_comm, or_one_eq]; omega
    have hb : (4 * c.MAX_COUNT + 1) ||| 2 = encode c.MAX_COUNT true true := by
      rw [or_two_eq]; unfold encode; simp; omega
    rw [ha, hb]

/-- `poll_linted` on an initialized packed word, low sample: decrement one
unit unless zero; clear the state flag exactly when the integrator is zero
after the decrement. -/
theorem poll_linted_low {Pin ε : Type} (c : Debounce) (hw : 2 ≤ c.width)
    (i : Nat) (b : Bool) (σ : Debouncer Pin)
    (hn : encode i true b < c.modulus)
    (hσ : σ.storage = encode i true b) :
    poll_linted c σ (Except.ok true : Except ε Bool) =
      (Except.ok (),
        { σ with storage := encode (i - 1) true (if i - 1 = 0 then false else b) }) := by
  have hn1 : encode (i - 1) true b < c.modulus :=
    lt_of_le_of_lt (encode_mono true b (by omega)) hn
  unfold poll_linted
  rw [hσ, init_flag_encode]
  simp only [Bool.not_true, Bool.false_eq_true, if_false]
  rw [decrement_integrator_encode c hw i true b hn,
    integrator_is_zero_encode c hw (i - 1) true b hn1]
  by_cases h0 : i - 1 = 0
  · rw [if_pos (by simp [h0]), clear_state_flag_encode c hw _ true b hn1,
      if_pos h0]
  · rw [if_neg (by simp [h0]), if_neg h0]

/-- `poll_linted` on an initialized packed word, non-low sample: increment
one unit unless at max; set the state flag exactly when the integrator is
at max after the increment. -/
theorem poll_linted_high {Pin ε : Type} (c : Debounce) (hw : 2 ≤ c.width)
    (hrt : c.shift_round_trip) (i : Nat) (b : Bool) (σ : Debouncer Pin)
    (hi : i ≤ c.MAX_COUNT) (hσ : σ.storage = encode i true b) :
    poll_linted c σ (Except.ok false : Except ε Bool) =
      (Except.ok (),
        { σ with storage := encode (min (i + 1) c.MAX_COUNT) true (if min (i + 1) c.MAX_COUNT = c.MAX_COUNT then true else b) }) := by
  have hb := rt_bound c hw hrt
  obtain ⟨k, hk, hp, hmod⟩ := width_split c hw
  have hle := encode_le (min (i + 1) c.MAX_COUNT) true b
  have hn1 : encode (min (i + 1) c.MAX_COUNT) true b < c.modulus := by omega
  unfold poll_linted
  rw [hσ, init_flag_encode]
  simp only [Bool.not_true, Bool.false_eq_true, if_false]
  rw [increment_integrator_encode c hw hrt i true b hi,
    integrator_is_max_encode c hw hrt _ true b hn1]
  by_cases hmax : min (i + 1) c.MAX_COUNT = c.MAX_COUNT
  · rw [if_pos (by simp [hmax]), set_state_flag_encode, if_pos hmax]
  · rw [if_neg (by simp [hmax]), if_neg hmax]

/-- Iterating `poll` on non-low samples from an initialized packed word:
the integrator accumulates and clamps at `MAX_COUNT`; the state flag is set
once the integrator has reached `MAX_COUNT` during the run. -/
theorem run_polls_high {Pin ε : Type} (c : Debounce) (hw : 2 ≤ c.width)
    (hrt : c.shift_round_trip) (k : Nat) :
    ∀ (i : Nat) (b : Bool) (σ : Debouncer Pin), i ≤ c.MAX_COUNT →
      σ.storage = encode i true b →
      (run c σ (List.replicate k (Op.opPoll (ε := ε) (Except.ok false)))).storage =
        encode (min (i + k) c.MAX_COUNT) true
          (if 1 ≤ k ∧ c.MAX_COUNT ≤ i + k then true else b) := by
  induction k with
  | zero =>
    intro i b σ hi hσ
    simp only [List.replicate, run]
    rw [hσ]
    have h1 : min (i + 0) c.MAX_COUNT = i := by omega
    rw [h1, if_neg (by omega)]
  | succ k ih =>
    intro i b σ hi hσ
    have hstep : step c σ (Op.opPoll (ε := ε) (Except.ok false)) =
        { σ with storage := encode (min (i + 1) c.MAX_COUNT) true (if min (i + 1) c.MAX_COUNT = c.MAX_COUNT then true else b) } := by
      simp only [step]
      rw [poll_linted_high c hw hrt i b σ hi hσ]
    rw [List.replicate_succ]
    simp only [run]
    rw [ih (min (i + 1) c.MAX_COUNT)
      (if min (i + 1) c.MAX_COUNT = c.MAX_COUNT then true else b) _
      (by omega) (by rw [hstep])]
    have hieq : min (min (i + 1) c.MAX_COUNT + k) c.MAX_COUNT =
        min (i + (k + 1)) c.MAX_COUNT := by omega
    rw [hieq]
    by_cases hA : 1 ≤ k ∧ c.MAX_COUNT ≤ min (i + 1) c.MAX_COUNT + k
    · rw [if_pos hA, if_pos (by omega)]
    · rw [if_neg hA]
      by_cases hB : min (i + 1) c.MAX_COUNT = c.MAX_COUNT
      · rw [if_pos hB, if_pos (by omega)]
      · rw [if_neg hB, if_neg (by omega)]

/-- The state invariant used for the integrator-bounds claim: the packed
word fits the storage width, and its integrator field is at most
`integrator_max`. -/
def Inv {Pin : Type} (c : Debounce) (σ : Debouncer Pin) : Prop :=
  σ.storage < c.modulus ∧ c.integrator σ.storage ≤ c.integrator_max

theorem Inv_uninit {Pin : Type} (c : Debounce) (hw : 2 ≤ c.width)
    (addr : Nat) : Inv c (Debouncer.uninit Pin addr) := by
  obtain ⟨k, hk, hp, hmod⟩ := width_split c hw
  constructor
  · show (0 : Nat) < c.modulus
    omega
  · show c.integrator 0 ≤ c.integrator_max
    unfold Debounce.integrator
    simp

theorem Inv_step {Pin ε : Type} (c : Debounce) (hw : 2 ≤ c.width)
    (hrt : c.shift_round_trip) (σ : Debouncer Pin) (op : Op Pin ε)
    (h : Inv c σ) : Inv c (step c σ op) := by
  obtain ⟨hlt, hint⟩ := h
  have hb := rt_bound c hw hrt
  obtain ⟨k, hk, hp, hmod⟩ := width_split c hw
  have himax : c.integrator_max = 4 * c.MAX_COUNT := imax_eq c hw hrt
  have hintegr : ∀ s, s < c.modulus → c.integrator s = 4 * (s / 4) :=
    fun s hs => and_integrator_mask c hw s hs
  cases op with
  | opInit p =>
    simp only [step]
    unfold init
    rw [if_pos hrt]
    unfold init_linted
    by_cases hflag : init_flag c σ.storage
    · rw [if_pos hflag]
      exact ⟨hlt, hint⟩
    · rw [if_neg hflag]
      simp only []
      constructor
      · show ((if c.INIT_HIGH then c.state_mask ||| c.integrator_max else c.zero) ||| c.init_mask) < c.modulus
        unfold Debounce.state_mask Debounce.init_mask Debounce.zero
        rw [himax]
        have h2 : (1 <<< 1 : Nat) = 2 := by decide
        rw [h2]
        cases c.INIT_HIGH
        · simp only [Bool.false_eq_true, if_false]
          rw [or_two_eq]
          omega
        · simp only [if_true]
          have ha : (1 : Nat) ||| 4 * c.MAX_COUNT = 4 * c.MAX_COUNT + 1 := by
            rw [Nat.or_comm, or_one_eq]; omega
          rw [ha, or_two_eq]
          omega
      · show c.integrator ((if c.INIT_HIGH then c.state_mask ||| c.integrator_max else c.zero) ||| c.init_mask) ≤ c.integrator_max
        unfold Debounce.state_mask Debounce.init_mask Debounce.zero
        rw [himax]
        have h2 : (1 <<< 1 : Nat) = 2 := by decide
        rw [h2]
        cases c.INIT_HIGH
        · simp only [Bool.false_eq_true, if_false]
          have hz : (0 : Nat) ||| 2 = 2 := by rw [or_two_eq]
          rw [hz, hintegr 2 (by omega)]
          omega
        · simp only [if_true]
          have ha : (1 : Nat) ||| 4 * c.MAX_COUNT = 4 * c.MAX_COUNT + 1 := by
            rw [Nat.or_comm, or_one_eq]; omega
          have hc : (4 * c.MAX_COUNT + 1) ||| 2 = 4 * c.MAX_COUNT + 3 := by
            rw [or_two_eq]; omega
          rw [ha, hc, hintegr _ (by omega)]
          omega
  | opPoll r =>
    simp only [step]
    unfold poll_linted
    by_cases hflag : init_flag c σ.storage
    · rw [if_neg (by simp [hflag])]
      match r with
      | Except.error e => exact ⟨hlt, hint⟩
      | Except.ok true =>
        simp only []
        have hdec : decrement_integrator c σ.storage = σ.storage ∨
            (4 ≤ σ.storage ∧
              decrement_integrator c σ.storage = σ.storage - 4) := by
          unfold decrement_integrator integrator_is_zero Debounce.zero
          by_cases hz : σ.storage &&& c.integrator_mask = 0
          · left; rw [if_pos (by simp [hz])]
          · right
            rw [and_integrator_mask c hw _ hlt] at hz
            have hge : 4 ≤ σ.storage := by omega
            refine ⟨hge, ?_⟩
            rw [if_neg (by rw [and_integrator_mask c hw _ hlt]; simp; omega)]
            have hone : c.integrator_one = 4 := rfl
            rw [hone]
            have hsplit : σ.storage + (c.modulus - 4) =
                (σ.storage - 4) + c.modulus := by omega
            rw [hsplit, Nat.add_mod_right, Nat.mod_eq_of_lt (by omega)]
        have hs1lt : decrement_integrator c σ.storage < c.modulus := by
          rcases hdec with h | ⟨h4, h⟩ <;> omega
        have hs1int : c.integrator (decrement_integrator c σ.storage) ≤
            c.integrator_max := by
          rw [hintegr _ hs1lt]
          rw [hintegr _ hlt] at hint
          rcases hdec with h | ⟨h4, h⟩ <;> rw [h] <;> omega
        by_cases hz : integrator_is_zero c (decrement_integrator c σ.storage)
        · rw [if_pos hz]
          have hcl : clear_state_flag c (decrement_integrator c σ.storage) =
              2 * (decrement_integrator c σ.storage / 2) := by
            unfold clear_state_flag
            exact and_state_clear c hw _ hs1lt
          constructor
          · show clear_state_flag c (decrement_integrator c σ.storage) < c.modulus
            rw [hcl]
            omega
          · show c.integrator (clear_state_flag c (decrement_integrator c σ.storage)) ≤ c.integrator_max
            rw [hcl, hintegr _ (by omega)]
            rw [hintegr _ hs1lt] at hs1int
            omega
        · rw [if_neg hz]
          exact ⟨hs1lt, hs1int⟩
      | Except.ok false =>
        simp only []
        have hinc : increment_integrator c σ.storage = σ.storage ∨
            (σ.storage + 4 < c.modulus ∧ 4 * (σ.storage / 4) < 4 * c.MAX_COUNT ∧
              increment_integrator c σ.storage = σ.storage + 4) := by
          unfold increment_integrator integrator_is_max
          by_cases hm : σ.storage &&& c.integrator_mask = c.integrator_max
          · left; rw [if_pos (by simp [hm])]
          · right
            rw [and_integrator_mask c hw _ hlt, himax] at hm
            rw [hintegr _ hlt] at hint
            rw [himax] at hint
            have hlt4 : 4 * (σ.storage / 4) < 4 * c.MAX_COUNT := by omega
            have hst : σ.storage + 4 < c.modulus := by omega
            refine ⟨hst, hlt4, ?_⟩
            rw [if_neg (by rw [and_integrator_mask c hw _ hlt, himax]; simp; omega)]
            have hone : c.integrator_one = 4 := rfl
            rw [hone, Nat.mod_eq_of_lt hst]
        have hs1lt : increment_integrator c σ.storage < c.modulus := by
          rcases hinc with h | ⟨h4, h5, h⟩ <;> omega
        have hs1int : c.integrator (increment_integrator c σ.storage) ≤
            c.integrator_max := by
          rw [hintegr _ hs1lt, himax]
          rw [hintegr _ hlt, himax] at hint
          rcases hinc with h | ⟨h4, h5, h⟩ <;> rw [h] <;> omega
        by_cases hm : integrator_is_max c (increment_integrator c σ.storage)
        · rw [if_pos hm]
          constructor
          · show set_state_flag c (increment_integrator c σ.storage) < c.modulus
            unfold set_state_flag Debounce.state_mask
            rw [or_one_eq]
            omega
          · show c.integrator (set_state_flag c (increment_integrator c σ.storage)) ≤ c.integrator_max
            unfold set_state_flag Debounce.state_mask
            rw [or_one_eq]
            have hslt : 2 * (increment_integrator c σ.storage / 2) + 1 <
                c.modulus := by omega
            rw [hintegr _ hslt]
            rw [hintegr _ hs1lt] at hs1int
            omega
        · rw [if_neg hm]
          exact ⟨hs1lt, hs1int⟩
    · rw [if_pos (by simp [hflag])]
      exact ⟨hlt, hint⟩
  | opDeinit v =>
    simp only [step]
    unfold deinit_linted
    by_cases hflag : init_flag c σ.storage
    · rw [if_neg (by simp [hflag])]
      by_cases haddr : σ.storageAddr ≠ v.storageAddr
      · rw [if_pos haddr]
        exact ⟨hlt, hint⟩
      · rw [if_neg haddr]
        constructor
        · show c.zero < c.modulus
          unfold Debounce.zero
          omega
        · show c.integrator c.zero ≤ c.integrator_max
          unfold Debounce.integrator Debounce.zero
          simp
    · rw [if_pos (by simp [hflag])]
      exact ⟨hlt, hint⟩

theorem Inv_run {Pin ε : Type} (c : Debounce) (hw : 2 ≤ c.width)
    (hrt : c.shift_round_trip) (ops : List (Op Pin ε)) :
    ∀ σ : Debouncer Pin, Inv c σ → Inv c (run c σ ops) := by
  induction ops with
  | nil => intro σ h; exact h
  | cons op ops ih =>
    intro σ h
    exact ih _ (Inv_step c hw hrt σ op h)

/-- A small concrete policy (8-bit storage, `MAX_COUNT = 3`,
`INIT_HIGH = false`) used to instantiate theorems on concrete inputs. -/
def cW : Debounce := Debounce.mk 8 3 false

/-- C1: on an initialized engine state under a valid policy, a successful
tick with a low sample decrements the integrator by one unit unless it is
already 0 and clears the logical-state flag exactly when the integrator is
0 after the decrement; a tick with any non-low sample increments the
integrator by one unit unless it is already at `MAX_COUNT` units and sets
the flag exactly when the integrator is at `MAX_COUNT` units after the
increment. -/
theorem claim1_tick_updates {Pin ε : Type} (c : Debounce) (hv : c.valid)
    (i : Nat) (b : Bool) (σ : Debouncer Pin) (hi : i ≤ c.MAX_COUNT)
    (hσ : σ.storage = encode i true b) :
    poll_linted c σ (Except.ok true : Except ε Bool) =
      (Except.ok (), { σ with storage := encode (i - 1) true (if i - 1 = 0 then false else b) }) ∧
    poll_linted c σ (Except.ok false : Except ε Bool) =
      (Except.ok (), { σ with storage := encode (min (i + 1) c.MAX_COUNT) true (if min (i + 1) c.MAX_COUNT = c.MAX_COUNT then true else b) }) := by
  obtain ⟨hw, hrt⟩ := hv
  have hb := rt_bound c hw hrt
  obtain ⟨k, hk, hp, hmod⟩ := width_split c hw
  have hle := encode_le i true b
  have hn : encode i true b < c.modulus := by omega
  exact ⟨poll_linted_low c hw i b σ hn hσ,
    poll_linted_high c hw hrt i b σ hi hσ⟩

theorem claim1_tick_updates_witness :
    poll_linted cW (Debouncer.mk (some ()) 10 0)
        (Except.ok true : Except Unit Bool) =
      (Except.ok (), Debouncer.mk (some ()) 6 0) ∧
    poll_linted cW (Debouncer.mk (some ()) 10 0)
        (Except.ok false : Except Unit Bool) =
      (Except.ok (), Debouncer.mk (some ()) 15 0) := by
  have h := claim1_tick_updates (ε := Unit) cW ⟨by decide, by decide⟩ 2 false
    (Debouncer.mk (some ()) 10 0) (by decide) (by decide)
  obtain ⟨h1, h2⟩ := h
  constructor
  · rw [h1]
    rfl
  · rw [h2]
    rfl


/-- C2: for a valid policy with `MAX_COUNT = m ≥ 1` and `INIT_HIGH = false`,
after initialization followed by `m` successful ticks whose sample reads are
all non-low, the view reports high; after only `m - 1` such ticks it still
reports low. -/
theorem claim2_saturation_threshold {Pin ε : Type} (c : Debounce)
    (hv : c.valid) (hm : 1 ≤ c.MAX_COUNT) (hih : c.INIT_HIGH = false)
    (addr : Nat) (p : Pin) :
    Debounced.is_high c ((run c (Debouncer.uninit Pin addr) (Op.opInit p :: List.replicate c.MAX_COUNT (Op.opPoll (ε := ε) (Except.ok false)))).storage) = Except.ok true ∧
    Debounced.is_high c ((run c (Debouncer.uninit Pin addr) (Op.opInit p :: List.replicate (c.MAX_COUNT - 1) (Op.opPoll (ε := ε) (Except.ok false)))).storage) = Except.ok false := by
  obtain ⟨hw, hrt⟩ := hv
  have hstep : step c (Debouncer.uninit Pin addr) (Op.opInit p : Op Pin ε) =
      { Debouncer.uninit Pin addr with pin := some p, storage := encode 0 true false } := by
    simp only [step]
    unfold init
    rw [if_pos hrt, init_linted_ok c hw hrt _ p (init_flag_zero c), hih]
    rfl
  constructor
  · simp only [run]
    rw [hstep, run_polls_high c hw hrt c.MAX_COUNT 0 false _ (by omega) rfl]
    have h1 : min (0 + c.MAX_COUNT) c.MAX_COUNT = c.MAX_COUNT := by omega
    rw [h1, if_pos ⟨hm, by omega⟩, is_high_encode]
  · simp only [run]
    rw [hstep,
      run_polls_high c hw hrt (c.MAX_COUNT - 1) 0 false _ (by omega) rfl]
    have h1 : min (0 + (c.MAX_COUNT - 1)) c.MAX_COUNT = c.MAX_COUNT - 1 := by
      omega
    rw [h1, if_neg (by omega), is_high_encode]

theorem claim2_saturation_threshold_witness :
    Debounced.is_high cW ((run cW (Debouncer.uninit Unit 0) (Op.opInit () :: List.replicate cW.MAX_COUNT (Op.opPoll (ε := Unit) (Except.ok false)))).storage) = Except.ok true ∧
    Debounced.is_high cW ((run cW (Debouncer.uninit Unit 0) (Op.opInit () :: List.replicate (cW.MAX_COUNT - 1) (Op.opPoll (ε := Unit) (Except.ok false)))).storage) = Except.ok false :=
  claim2_saturation_threshold cW ⟨by decide, by decide⟩ (by decide) (by decide)
    0 ()

/-- C3: starting from a freshly constructed engine, under a valid policy
the integrator field of the packed word stays within
`[0, integrator_max]` across every sequence of init, successful or failed
tick, and deinit operations. -/
theorem claim3_integrator_bounds {Pin ε : Type} (c : Debounce)
    (hv : c.valid) (addr : Nat) (ops : List (Op Pin ε)) :
    c.zero ≤ c.integrator ((run c (Debouncer.uninit Pin addr) ops).storage) ∧
    c.integrator ((run c (Debouncer.uninit Pin addr) ops).storage) ≤ c.integrator_max := by
  obtain ⟨hw, hrt⟩ := hv
  have h := Inv_run c hw hrt ops (Debouncer.uninit Pin addr)
    (Inv_uninit c hw addr)
  exact ⟨Nat.zero_le _, h.2⟩

theorem claim3_integrator_bounds_witness :
    cW.zero ≤ cW.integrator ((run cW (Debouncer.uninit Unit 9) [Op.opInit (), Op.opPoll (ε := Unit) (Except.ok false), Op.opPoll (Except.error ()), Op.opPoll (Except.ok false), Op.opPoll (Except.ok false), Op.opPoll (Except.ok false), Op.opPoll (Except.ok true), Op.opDeinit ⟨9⟩]).storage) ∧
    cW.integrator ((run cW (Debouncer.uninit Unit 9) [Op.opInit (), Op.opPoll (ε := Unit) (Except.ok false), Op.opPoll (Except.error ()), Op.opPoll (Except.ok false), Op.opPoll (Except.ok false), Op.opPoll (Except.ok false), Op.opPoll (Except.ok true), Op.opDeinit ⟨9⟩]).storage) ≤ cW.integrator_max :=
  claim3_integrator_bounds cW ⟨by decide, by decide⟩ 9 _

/-- C4: `init_linted` on an already-initialized engine fails with
`InitError` leaving the state unchanged; on an uninitialized engine it
stores the pin, packs integrator `integrator_max` or `0` and state flag
according to `INIT_HIGH`, sets the initialized flag, and returns a view
bound to the storage of this engine. -/
theorem claim4_init_behavior {Pin : Type} (c : Debounce) (hv : c.valid)
    (σ : Debouncer Pin) (p : Pin) :
    (init_flag c σ.storage = true →
      init_linted c σ p = (Except.error InitError.mk, σ)) ∧
    (init_flag c σ.storage = false →
      (init_linted c σ p).1 = Except.ok ⟨σ.storageAddr⟩ ∧
      ((init_linted c σ p).2).pin = some p ∧
      ((init_linted c σ p).2).storageAddr = σ.storageAddr ∧
      init_flag c ((init_linted c σ p).2).storage = true ∧
      c.integrator ((init_linted c σ p).2).storage = (if c.INIT_HIGH then c.integrator_max else 0) ∧
      Debounced.is_high c ((init_linted c σ p).2).storage = Except.ok c.INIT_HIGH) := by
  obtain ⟨hw, hrt⟩ := hv
  have hb := rt_bound c hw hrt
  obtain ⟨k, hk, hp, hmod⟩ := width_split c hw
  constructor
  · intro h
    unfold init_linted
    rw [if_pos (by simp [h])]
  · intro h
    rw [init_linted_ok c hw hrt σ p h]
    refine ⟨rfl, rfl, rfl, ?_, ?_, ?_⟩
    · exact init_flag_encode c _ true c.INIT_HIGH
    · have hle := encode_le (if c.INIT_HIGH then c.MAX_COUNT else 0) true
        c.INIT_HIGH
      have hone : (if c.INIT_HIGH then c.MAX_COUNT else 0) ≤ c.MAX_COUNT := by
        cases c.INIT_HIGH <;> simp
      rw [integrator_encode c hw _ true c.INIT_HIGH (by omega),
        imax_eq c hw hrt]
      cases c.INIT_HIGH <;> simp
    · exact is_high_encode c _ true c.INIT_HIGH

theorem claim4_init_behavior_witness :
    init_flag cW ((Debouncer.mk (some ()) 10 5 : Debouncer Unit)).storage = true ∧
    init_linted cW (Debouncer.mk (some ()) 10 5) () = (Except.error InitError.mk, Debouncer.mk (some ()) 10 5) ∧
    init_flag cW ((Debouncer.mk (none : Option Unit) 0 5)).storage = false ∧
    (init_linted cW (Debouncer.mk (none : Option Unit) 0 5) ()).1 = Except.ok ⟨5⟩ ∧
    init_flag cW ((init_linted cW (Debouncer.mk (none : Option Unit) 0 5) ()).2).storage = true := by
  refine ⟨by decide, ?_, by decide, ?_, ?_⟩
  · exact (claim4_init_behavior cW ⟨by decide, by decide⟩ _ ()).1 (by decide)
  · exact ((claim4_init_behavior cW ⟨by decide, by decide⟩ _ ()).2
      (by decide)).1
  · exact ((claim4_init_behavior cW ⟨by decide, by decide⟩ _ ()).2
      (by decide)).2.2.2.1

/-- C5: when `MAX_COUNT` does not survive the 2-bit shift round trip in the
storage width, `init` fails with the configuration error and leaves the
engine untouched (no view is produced, so sampling cannot proceed). -/
theorem claim5_config_error {Pin : Type} (c : Debounce)
    (hbad : ¬ c.shift_round_trip) (σ : Debouncer Pin) (p : Pin) :
    init c σ p = (Except.error InitFailure.config, σ) := by
  unfold init
  rw [if_neg hbad]

theorem claim5_config_error_witness :
    ¬ (Debounce.mk 8 64 false).shift_round_trip ∧
    init (Debounce.mk 8 64 false) (Debouncer.mk (none : Option Unit) 0 0) () =
      (Except.error InitFailure.config, Debouncer.mk (none : Option Unit) 0 0) :=
  ⟨by decide, claim5_config_error (Debounce.mk 8 64 false) (by decide) _ ()⟩

/-- C6: `poll_linted` on an uninitialized engine fails with
`PollError::Init`, and on an initialized engine whose source read fails it
propagates the error as `PollError::Pin`; in both cases the engine state is
exactly what it was before the call. -/
theorem claim6_poll_errors {Pin ε : Type} (c : Debounce)
    (σ : Debouncer Pin) :
    (init_flag c σ.storage = false → ∀ r : Except ε Bool,
      poll_linted c σ r = (Except.error PollError.init, σ)) ∧
    (init_flag c σ.storage = true → ∀ e : ε,
      poll_linted c σ (Except.error e) = (Except.error (PollError.pin e), σ)) := by
  constructor
  · intro h r
    unfold poll_linted
    rw [h]
    rfl
  · intro h e
    unfold poll_linted
    rw [h]
    rfl

theorem claim6_poll_errors_witness :
    init_flag cW ((Debouncer.mk (none : Option Unit) 0 0)).storage = false ∧
    init_flag cW ((Debouncer.mk (some ()) 10 0)).storage = true ∧
    poll_linted cW (Debouncer.mk (none : Option Unit) 0 0)
        (Except.ok true : Except Unit Bool) =
      (Except.error PollError.init, Debouncer.mk (none : Option Unit) 0 0) ∧
    poll_linted cW (Debouncer.mk (some ()) 10 0)
        (Except.error () : Except Unit Bool) =
      (Except.error (PollError.pin ()), Debouncer.mk (some ()) 10 0) :=
  ⟨by decide, by decide,
    (claim6_poll_errors cW _).1 (by decide) _,
    (claim6_poll_errors cW _).2 (by decide) ()⟩

/-- C7: `deinit_linted` fails with `DeinitError::Init` when the initialized
flag is clear; fails with `DeinitError::Pin`, returning the supplied view
and leaving the engine unchanged, when the view does not reference this
storage of this engine; and on success zeroes the whole packed word and returns
the content of the pin slot. -/
theorem claim7_deinit_behavior {Pin : Type} (c : Debounce)
    (σ : Debouncer Pin) (v : Debounced) :
    (init_flag c σ.storage = false →
      deinit_linted c σ v = (Except.error DeinitError.init, σ)) ∧
    (init_flag c σ.storage = true → σ.storageAddr ≠ v.storageAddr →
      deinit_linted c σ v = (Except.error (DeinitError.pin v), σ)) ∧
    (init_flag c σ.storage = true → σ.storageAddr = v.storageAddr →
      deinit_linted c σ v = (Except.ok σ.pin, { σ with storage := c.zero, pin := none })) := by
  refine ⟨?_, ?_, ?_⟩
  · intro h
    unfold deinit_linted
    rw [h]
    rfl
  · intro h hne
    unfold deinit_linted
    rw [h]
    simp only [Bool.not_true, Bool.false_eq_true, if_false]
    rw [if_pos hne]
  · intro h heq
    unfold deinit_linted
    rw [h]
    simp only [Bool.not_true, Bool.false_eq_true, if_false]
    rw [if_neg (by simp [heq])]

theorem claim7_deinit_behavior_witness :
    deinit_linted cW (Debouncer.mk (none : Option Unit) 0 4) ⟨4⟩ =
      (Except.error DeinitError.init, Debouncer.mk (none : Option Unit) 0 4) ∧
    deinit_linted cW (Debouncer.mk (some ()) 10 4) ⟨3⟩ =
      (Except.error (DeinitError.pin ⟨3⟩), Debouncer.mk (some ()) 10 4) ∧
    deinit_linted cW (Debouncer.mk (some ()) 10 4) ⟨4⟩ =
      (Except.ok (some ()), Debouncer.mk (none : Option Unit) cW.zero 4) :=
  ⟨(claim7_deinit_behavior cW _ _).1 (by decide),
    (claim7_deinit_behavior cW _ _).2.1 (by decide) (by decide),
    (claim7_deinit_behavior cW _ _).2.2 (by decide) (by decide)⟩

/-- C8: a successful `deinit` followed by `init` with a fresh pin yields
exactly the packed state of initializing a freshly constructed engine —
the result depends only on the policy, not on the history before the
release. -/
theorem claim8_reinit_fresh {Pin : Type} (c : Debounce) (hv : c.valid)
    (σ : Debouncer Pin) (v : Debounced) (q : Pin) (addr2 : Nat)
    (hflag : init_flag c σ.storage = true)
    (hmatch : σ.storageAddr = v.storageAddr) :
    (init c (deinit_linted c σ v).2 q).1 = Except.ok ⟨σ.storageAddr⟩ ∧
    ((init c (deinit_linted c σ v).2 q).2).storage =
      ((init c (Debouncer.uninit Pin addr2) q).2).storage := by
  obtain ⟨hw, hrt⟩ := hv
  have hdein : deinit_linted c σ v =
      (Except.ok σ.pin, { σ with storage := c.zero, pin := none }) := by
    unfold deinit_linted
    rw [hflag]
    simp only [Bool.not_true, Bool.false_eq_true, if_false]
    rw [if_neg (by simp [hmatch])]
  have hinit1 : init c (deinit_linted c σ v).2 q =
      (Except.ok ⟨σ.storageAddr⟩, { σ with pin := some q, storage := encode (if c.INIT_HIGH then c.MAX_COUNT else 0) true c.INIT_HIGH }) := by
    rw [hdein]
    unfold init
    rw [if_pos hrt, init_linted_ok c hw hrt _ q (init_flag_zero c)]
  have hinit2 : init c (Debouncer.uninit Pin addr2) q =
      (Except.ok ⟨addr2⟩, { Debouncer.uninit Pin addr2 with pin := some q, storage := encode (if c.INIT_HIGH then c.MAX_COUNT else 0) true c.INIT_HIGH }) := by
    unfold init
    rw [if_pos hrt, init_linted_ok c hw hrt _ q (init_flag_zero c)]
    rfl
  constructor
  · rw [hinit1]
  · rw [hinit1, hinit2]

theorem claim8_reinit_fresh_witness :
    (init cW (deinit_linted cW (Debouncer.mk (some ()) 15 7) ⟨7⟩).2 ()).1 =
      Except.ok ⟨7⟩ ∧
    ((init cW (deinit_linted cW (Debouncer.mk (some ()) 15 7) ⟨7⟩).2 ()).2).storage =
      ((init cW (Debouncer.uninit Unit 0) ()).2).storage :=
  claim8_reinit_fresh cW ⟨by decide, by decide⟩ (Debouncer.mk (some ()) 15 7)
    ⟨7⟩ () 0 (by decide) (by decide)

/-- C9: for every packed state value, the `is_high` and `is_low` reads of the view
both return `Ok` (the error type is uninhabited) and their results are
complementary, determined by the logical-state flag, bit 0 of the bound
storage word. -/
theorem claim9_view_reads (c : Debounce) (s : Nat) :
    Debounced.is_high c s = Except.ok (decide (s % 2 = 1)) ∧
    Debounced.is_low c s = Except.ok (!decide (s % 2 = 1)) := by
  unfold Debounced.is_high Debounced.is_low Debounce.state_mask Debounce.zero
  rw [Nat.and_one_is_mod]
  constructor
  · congr 1
    exact decide_eq_decide.mpr (by omega)
  · congr 1
    rcases Nat.mod_two_eq_zero_or_one s with h | h <;> simp [h]

/-- C10: `deinit_linted` on an uninitialized engine fails with the bare
`DeinitError::Init`, which (unlike `DeinitError::Pin`) carries no view, so
the view passed in is consumed and not handed back to the caller. -/
theorem claim10_init_error_consumes_view {Pin : Type} (c : Debounce)
    (σ : Debouncer Pin) (v : Debounced)
    (hflag : init_flag c σ.storage = false) :
    deinit_linted c σ v = (Except.error DeinitError.init, σ) ∧
    ∀ u : Debounced, DeinitError.init ≠ DeinitError.pin u := by
  constructor
  · unfold deinit_linted
    rw [hflag]
    rfl
  · intro u h
    exact DeinitError.noConfusion h

theorem claim10_init_error_consumes_view_witness :
    deinit_linted cW (Debouncer.mk (none : Option Unit) 0 2) ⟨2⟩ =
      (Except.error DeinitError.init, Debouncer.mk (none : Option Unit) 0 2) ∧
    ∀ u : Debounced, DeinitError.init ≠ DeinitError.pin u :=
  claim10_init_error_consumes_view cW (Debouncer.mk (none : Option Unit) 0 2)
    ⟨2⟩ (by decide)

end Unflappable
